import Mathlib

/-!
# Verification of the dh-icalnigma extraction and serialization pipeline

This file gives a shallow embedding of the Rust sources of the
`dh-icalnigma` repository (`src/main.rs`, `src/model.rs`, `src/icalendar.rs`,
`src/util.rs`, `src/archive.rs`) and proves or refutes the frozen claims
about them.

Modelling conventions:
* Rust `String`/`&str` values are Lean `String` (a wrapper of `List Char`);
  byte-level operations (`len`, `split_at`) are modelled explicitly via
  the UTF-8 size of each character (`charUtf8Size`).
* Fallible code returns `ExtractResult`, which has a third constructor for
  a Rust panic (needed because `str::split_at` can panic on a non-boundary
  index).
* `chrono`'s datetime parsing with format `"%d.%m.%y%H:%M"` is external to
  the repository; it is modelled by `parseDDMMYYHHMM` following chrono's
  documented behaviour (numeric fields skip leading whitespace and read one
  or two digits, literals match exactly, the whole input must be consumed,
  the resulting date must be a valid calendar date).  The fixed-offset
  conversion `Europe/Berlin → UTC` is order- and field-preserving for the
  claims considered here and is modelled as the identity.
* Rust's `DefaultHasher` (SipHash-1-3) is external to the repository; it is
  modelled by a fixed deterministic FNV-style hash of the encoded byte
  stream.  Only the fact that it is a pure function of the byte stream is
  used by any proof.
-/

set_option autoImplicit false
set_option maxRecDepth 40000

namespace ICalnigma

/-! ## UTF-8 byte-level string primitives -/

/-- The number of bytes of the UTF-8 encoding of a character
(Rust `char::len_utf8`). -/
def charUtf8Size (c : Char) : Nat :=
  if c.val < 0x80 then 1
  else if c.val < 0x800 then 2
  else if c.val < 0x10000 then 3
  else 4

/-- The UTF-8 byte length of a character sequence (Rust `str::len`). -/
def byteSize (l : List Char) : Nat := (l.map charUtf8Size).sum

/-- Rust `str::split_at n`: splits at byte index `n`; `none` models the
panic raised when `n` is not a character boundary or past the end. -/
def splitAtByte : List Char → Nat → Option (List Char × List Char)
  | l, 0 => some ([], l)
  | [], _ + 1 => none
  | c :: cs, n + 1 =>
    if charUtf8Size c ≤ n + 1 then
      (splitAtByte cs (n + 1 - charUtf8Size c)).map (fun p => (c :: p.1, p.2))
    else
      none

/-- Rust `str::trim_start`. -/
def trimStartChars (l : List Char) : List Char := l.dropWhile (·.isWhitespace)

/-- Rust `str::trim` (both ends). -/
def trimChars (l : List Char) : List Char :=
  ((l.dropWhile (·.isWhitespace)).reverse.dropWhile (·.isWhitespace)).reverse

/-- Rust `str::strip_prefix`. -/
def stripPrefixChars : List Char → List Char → Option (List Char)
  | [], l => some l
  | _ :: _, [] => none
  | p :: ps, c :: cs => if p = c then stripPrefixChars ps cs else none

/-- Auxiliary accumulator-based splitter. -/
def splitOnCharsAux (seps : List Char) : List Char → List Char → List (List Char)
  | [], acc => [acc.reverse]
  | c :: cs, acc =>
    if c ∈ seps then acc.reverse :: splitOnCharsAux seps cs []
    else splitOnCharsAux seps cs (c :: acc)

/-- Rust `str::split` on a set of separator characters; empty substrings are
kept, and the result is never empty. -/
def splitOnChars (l : List Char) (seps : List Char) : List (List Char) :=
  splitOnCharsAux seps l []

/-! ## Date and time model (`chrono::DateTime<Utc>` at minute resolution)

The extractor only ever builds datetimes through the format
`"%d.%m.%y%H:%M"`, so seconds are always zero and a record of
year/month/day/hour/minute is a faithful model of the values that occur. -/

structure DateTime where
  year : Int
  month : Nat
  day : Nat
  hour : Nat
  minute : Nat
deriving DecidableEq, Repr

/-- Leap year rule of the proleptic Gregorian calendar. -/
def isLeapYear (y : Int) : Bool :=
  (y % 4 == 0 && y % 100 != 0) || (y % 400 == 0)

/-- Days of a month (1–12). -/
def daysInMonth (leap : Bool) (m : Nat) : Nat :=
  match m with
  | 1 => 31 | 2 => if leap then 29 else 28 | 3 => 31 | 4 => 30
  | 5 => 31 | 6 => 30 | 7 => 31 | 8 => 31
  | 9 => 30 | 10 => 31 | 11 => 30 | 12 => 31
  | _ => 0

/-- Days in the months strictly before month `m`. -/
def cumDaysBeforeMonth (leap : Bool) : Nat → Nat
  | 0 => 0
  | m + 1 => cumDaysBeforeMonth leap m + daysInMonth leap m

/-- Number of leap years in `(-∞, y)`, shifted by a constant. -/
def leapsBefore (y : Int) : Int :=
  Int.fdiv (y - 1) 4 - Int.fdiv (y - 1) 100 + Int.fdiv (y - 1) 400

/-- Days between 1970-01-01 and y-m-d (proleptic Gregorian). -/
def daysFromCivil (y : Int) (m d : Nat) : Int :=
  365 * (y - 1970) + (leapsBefore y - leapsBefore 1970)
    + (cumDaysBeforeMonth (isLeapYear y) m : Int) + ((d : Int) - 1)

/-- `chrono::DateTime::timestamp`: seconds since the Unix epoch. -/
def DateTime.timestamp (dt : DateTime) : Int :=
  daysFromCivil dt.year dt.month dt.day * 86400
    + (dt.hour : Int) * 3600 + (dt.minute : Int) * 60

/-- `chrono` datetime ordering (= timestamp ordering at second resolution). -/
def DateTime.le (a b : DateTime) : Prop := a.timestamp ≤ b.timestamp

instance : DecidableRel DateTime.le := fun a b =>
  inferInstanceAs (Decidable (a.timestamp ≤ b.timestamp))

/-! ### The chrono parser for format `"%d.%m.%y%H:%M"`

Modelled from chrono's documented parsing behaviour: each numeric field
skips leading whitespace and then reads one or two digits; literal
characters must match exactly; the whole input must be consumed; the
parsed fields must form a valid calendar date and time; `%y` maps 69–99
to 19xx and 0–68 to 20xx. -/

/-- Read one or two decimal digits (at least one). -/
def readNum2 : List Char → Option (Nat × List Char)
  | [] => none
  | c1 :: rest =>
    if c1.isDigit then
      match rest with
      | c2 :: rest2 =>
        if c2.isDigit then
          some ((c1.toNat - 48) * 10 + (c2.toNat - 48), rest2)
        else
          some (c1.toNat - 48, rest)
      | [] => some (c1.toNat - 48, [])
    else none

/-- Read a numeric field: skip leading whitespace, then 1–2 digits. -/
def readField (l : List Char) : Option (Nat × List Char) :=
  readNum2 (trimStartChars l)

/-- Match a literal character. -/
def readLit (c : Char) : List Char → Option (List Char)
  | [] => none
  | c' :: rest => if c' = c then some rest else none

/-- The `%y` → year mapping and the final validity check of chrono's
`Parsed::to_datetime`. -/
def mkValidDateTime (d m yy hh mi : Nat) : Option DateTime :=
  let year : Int := if 69 ≤ yy then 1900 + yy else 2000 + yy
  if 1 ≤ m ∧ m ≤ 12 ∧ 1 ≤ d ∧ d ≤ daysInMonth (isLeapYear year) m
      ∧ hh < 24 ∧ mi < 60 then
    some ⟨year, m, d, hh, mi⟩
  else none

/-- Parse a complete string as `dd.mm.yyHH:MM` (chrono model, see above). -/
def parseDDMMYYHHMM (s : String) : Option DateTime :=
  (readField s.data).bind fun dl =>
  (readLit '.' dl.2).bind fun l2 =>
  (readField l2).bind fun ml =>
  (readLit '.' ml.2).bind fun l4 =>
  (readField l4).bind fun yyl =>
  (readField yyl.2).bind fun hhl =>
  (readLit ':' hhl.2).bind fun l7 =>
  (readField l7).bind fun mil =>
  if mil.2 = [] then mkValidDateTime dl.1 ml.1 yyl.1 hhl.1 mil.1 else none

/-! ## HTML tree model and the tree accessor (`src/util.rs`)

A parsed node (`markup5ever_rcdom::Handle`) is either an element with a
tag name and attributes or a text node; both carry a child list. -/

inductive NodeData where
  | element (tag : String) (attrs : List (String × String))
  | text (contents : String)
deriving Repr

inductive Node where
  | mk (data : NodeData) (children : List Node)

def Node.data : Node → NodeData
  | .mk d _ => d

def Node.children : Node → List Node
  | .mk _ c => c

/-- Is `n` an element node with local tag name `tag`? -/
def hasTagName (tag : String) (n : Node) : Bool :=
  match n.data with
  | .element t _ => t == tag
  | .text _ => false

/-- `HandleExtensions::get_nodes_by_tag_name`: all direct element children
with the given tag name. -/
def getNodesByTagName (n : Node) (tag : String) : List Node :=
  n.children.filter (hasTagName tag)

/-- `HandleExtensions::get_node_by_tag_name`: the first direct element child
with the given tag name. -/
def getNodeByTagName (n : Node) (tag : String) : Option Node :=
  (getNodesByTagName n tag).head?

/-- `HandleExtensions::get_attribute_value`. -/
def getAttributeValue (n : Node) (attributeName : String) : Option String :=
  match n.data with
  | .element _ attrs => (attrs.find? (fun a => a.1 == attributeName)).map Prod.snd
  | .text _ => none

/-- `HandleExtensions::get_content`: the first text-node child's content. -/
def getContent (n : Node) : Option String :=
  n.children.findSome? (fun c =>
    match c.data with
    | .text contents => some contents
    | .element _ _ => none)

/-! ## Association-list maps

`HashMap`/`BTreeMap` values are modelled as association lists with
insert-replaces-existing semantics; key iteration order only matters
through `lookupAssoc`/`insertAssoc` in the claims below. -/

/-- `insert`: replace the value of an existing key, else append. -/
def insertAssoc {α : Type} : List (String × α) → String → α → List (String × α)
  | [], k, v => [(k, v)]
  | (k', v') :: rest, k, v =>
    if k' = k then (k, v) :: rest else (k', v') :: insertAssoc rest k v

/-- `get`: the value of the first matching key. -/
def lookupAssoc {α : Type} : List (String × α) → String → Option α
  | [], _ => none
  | (k', v') :: rest, k => if k' = k then some v' else lookupAssoc rest k

/-- `BTreeMap::extend` (as used for the archive merge): insert every entry
of `fresh` into `base`, in order, replacing existing keys. -/
def extendAssoc {α : Type} : List (String × α) → List (String × α) → List (String × α)
  | base, [] => base
  | base, (k, v) :: rest => extendAssoc (insertAssoc base k v) rest

/-! ## Event model (`src/model.rs`) -/

structure Lecturer where
  name : String
deriving DecidableEq, Repr

/-- `model::EventData`.  `main.rs` constructs the `number` field as a plain
string (`map_or_else(String::new, ...)`), which is what is modelled here. -/
inductive EventData where
  | lecture (number : String) (language : Option String) (kind : Option String)
      (categories : List String) (totalHours : Option Nat)
  | exam
  | other
deriving DecidableEq, Repr

structure Event where
  creation : Option DateTime
  creator : Option String
  begin : DateTime
  «end» : DateTime
  name : String
  lecturers : List Lecturer
  locations : List String
  courses : List String
  data : EventData
deriving DecidableEq, Repr

/-- `Event::title`. -/
def Event.title (e : Event) : String :=
  match e.data with
  | .lecture _ _ (some kind) _ _ => e.name ++ " - " ++ kind
  | _ => e.name

/-! ## Identity hashing (`Event::hash` in `src/model.rs`)

The source feeds the struct
`EventHash { creation_time, name, year, month, day, creator }` into Rust's
`DefaultHasher`.  The derived `Hash` instance writes the fields, in order,
as a byte stream; `DefaultHasher` (SipHash-1-3, fixed keys, deterministic
across runs) is external to the repository and is modelled by a fixed
FNV-style fold over that byte stream. -/

/-- Little-endian byte encoding of `n % 256^k`. -/
def natToLEBytes : Nat → Nat → List Nat
  | 0, _ => []
  | k + 1, n => (n % 256) :: natToLEBytes k (n / 256)

/-- Two's-complement little-endian encoding of an `i64`. -/
def i64ToLEBytes (i : Int) : List Nat := natToLEBytes 8 (i % 2 ^ 64).toNat

/-- Two's-complement little-endian encoding of an `i32`. -/
def i32ToLEBytes (i : Int) : List Nat := natToLEBytes 4 (i % 2 ^ 32).toNat

/-- Little-endian encoding of a `u32`. -/
def u32ToLEBytes (n : Nat) : List Nat := natToLEBytes 4 (n % 2 ^ 32)

/-- UTF-8 encoding of one character. -/
def charUtf8Bytes (c : Char) : List Nat :=
  let v := c.toNat
  if v < 0x80 then [v]
  else if v < 0x800 then [0xC0 + v / 64, 0x80 + v % 64]
  else if v < 0x10000 then [0xE0 + v / 4096, 0x80 + v / 64 % 64, 0x80 + v % 64]
  else [0xF0 + v / 262144, 0x80 + v / 4096 % 64, 0x80 + v / 64 % 64, 0x80 + v % 64]

/-- `Hash for str`: the UTF-8 bytes followed by a `0xFF` terminator. -/
def strHashBytes (s : String) : List Nat := (s.data.map charUtf8Bytes).flatten ++ [0xFF]

/-- `Hash for Option<&String>`: discriminant byte, then the payload. -/
def optStrHashBytes : Option String → List Nat
  | none => [0]
  | some s => 1 :: strHashBytes s

/-- The byte stream written by `EventHash`'s derived `Hash` instance:
`creation_time` (i64, `creation.map_or(0, |t| t.timestamp())`), `name`,
`begin.year()` (i32), `begin.month()` (u32), `begin.day()` (u32),
`creator`. -/
def encodeEventHash (e : Event) : List Nat :=
  i64ToLEBytes (e.creation.elim 0 DateTime.timestamp)
    ++ strHashBytes e.name
    ++ i32ToLEBytes e.begin.year
    ++ u32ToLEBytes e.begin.month
    ++ u32ToLEBytes e.begin.day
    ++ optStrHashBytes e.creator

/-- Stand-in for `DefaultHasher::finish`: a fixed deterministic 64-bit
FNV-style fold of the byte stream. -/
def defaultHasherFinish (bytes : List Nat) : Nat :=
  bytes.foldl (fun h b => (h ^^^ b) * 1099511628211 % 2 ^ 64) 14695981039346656037

/-- `Event::hash`. -/
def Event.hashCode (e : Event) : Nat := defaultHasherFinish (encodeEventHash e)

/-! ## Extraction results

`util::Error` has a single string-payload variant.  `ExtractResult` adds a
constructor for a Rust panic, which aborts the whole program rather than
being caught by any caller. -/

inductive Error where
  | custom (msg : String)
deriving DecidableEq, Repr

inductive ExtractResult (α : Type) where
  | ok (a : α)
  | err (e : Error)
  | panicked (msg : String)
deriving DecidableEq, Repr

/-- `Option::ok_or`. -/
def okOr {α : Type} : Option α → String → ExtractResult α
  | some a, _ => .ok a
  | none, msg => .err (.custom msg)

/-- Sequencing of fallible steps; errors and panics short-circuit
(Rust's `?` operator, with panics propagating unconditionally). -/
def ExtractResult.bind {α β : Type} :
    ExtractResult α → (α → ExtractResult β) → ExtractResult β
  | .ok a, f => f a
  | .err e, _ => .err e
  | .panicked m, _ => .panicked m

instance : Monad ExtractResult where
  pure := .ok
  bind := ExtractResult.bind

/-! ## Event extraction (`src/main.rs`) -/

/-- `main.rs` lines 188–196: parse the creation text of an event.
The raw `get_content` text is trimmed at the start, the literal prefix
`"erstellt am"` is stripped, the remaining byte length must be at least 14,
and the first 14 **bytes** are parsed as `dd.mm.yyHH:MM`; `str::split_at`
panics when byte index 14 is not a character boundary. -/
def parseCreation (ccRaw : String) : ExtractResult DateTime :=
  match stripPrefixChars "erstellt am".data (trimStartChars ccRaw.data) with
  | none => .err (.custom "No creation prefix found for event!")
  | some ccText =>
    if byteSize ccText < 14 then
      .err (.custom ("Invalid creation text on event: " ++ ccText.asString))
    else
      match splitAtByte ccText 14 with
      | none => .panicked "byte index 14 is not a char boundary"
      | some (creationText, _) =>
        match parseDDMMYYHHMM creationText.asString with
        | none => .err (.custom "Failed to parse begin time of event")
        | some dt => .ok dt

/-- `main.rs` lines 199–211: split the datetime text on spaces and hyphens,
discard the weekday token, then parse `date ++ beginTime` and
`date ++ endTime` (both as `dd.mm.yyHH:MM`). -/
def parseBeginEnd (dateTimeText : String) : ExtractResult (DateTime × DateTime) :=
  match splitOnChars dateTimeText.data [' ', '-'] with
  | [] => .err (.custom "No date in event datetime!")
  | _ :: rest =>
    match rest with
    | [] => .err (.custom "No date in event datetime!")
    | date :: rest2 =>
      match rest2 with
      | [] => .err (.custom "No begin time in event datetime!")
      | beginTime :: rest3 =>
        match rest3 with
        | [] => .err (.custom "No end time in event datetime!")
        | endTime :: _ =>
          match parseDDMMYYHHMM (date ++ beginTime).asString with
          | none => .err (.custom "Failed to parse begin time of event")
          | some b =>
            match parseDDMMYYHHMM (date ++ endTime).asString with
            | none => .err (.custom "Failed to parse begin time of event")
            | some e => .ok (b, e)

/-- The lazily initialized `GROUP_PATTERN` regex `^[A-Z]{3}-[A-Z0-9 ]+$`. -/
def groupPatternMatch (s : String) : Bool :=
  match s.data with
  | a :: b :: c :: '-' :: rest =>
    a.isUpper && b.isUpper && c.isUpper && !rest.isEmpty
      && rest.all (fun ch => ch.isUpper || ch.isDigit || ch = ' ')
  | _ => false

/-- `main.rs` lines 220–233: split the `"Ressourcen"` value on commas and
classify each (untrimmed) token as a course when it matches
`GROUP_PATTERN`, else as a location. -/
def classifyResources (resources : String) : List String × List String :=
  ((splitOnChars resources.data [',']).map List.asString).foldl
    (fun acc resource =>
      if groupPatternMatch resource then (acc.1 ++ [resource], acc.2)
      else (acc.1, acc.2 ++ [resource]))
    ([], [])

/-- `main.rs` lines 270–296 (`parse_metadata`): build a key → value map
from the rows of the metadata table, trimming a trailing colon from keys
and skipping rows with fewer than two cells or an empty value. -/
def parseMetadataRow (metadata : List (String × String)) (rowHandle : Node) :
    List (String × String) :=
  match getNodesByTagName rowHandle "td" with
  | c0 :: c1 :: _ =>
    let key :=
      ((getContent c0).map (fun k =>
        match k.data.getLast? with
        | some ':' => (k.data.dropLast).asString
        | _ => k)).getD ""
    match getContent c1 with
    | some value => if value = "" then metadata else insertAssoc metadata key value
    | none => metadata
  | _ => metadata

def parseMetadata (metadataHandle : Node) : List (String × String) :=
  match getNodeByTagName metadataHandle "tbody" with
  | none => []
  | some tbodyHandle => (getNodesByTagName tbodyHandle "tr").foldl parseMetadataRow []

/-- Rust `str::parse::<u32>` (an optional `+` sign, then decimal digits,
value bounded by `u32::MAX`), as an `Option` via `.ok()`. -/
def parseU32? (s : String) : Option Nat :=
  let digits := match s.data with | '+' :: rest => rest | l => l
  if !digits.isEmpty && digits.all Char.isDigit then
    let v := digits.foldl (fun n c => n * 10 + (c.toNat - 48)) 0
    if v < 2 ^ 32 then some v else none
  else none

/-- The `match event_type_raw.as_str()` of `main.rs` lines 247–265,
selecting the `EventData` variant from the `<strong>` label. -/
def eventDataFor (eventTypeRaw : String) (metadata : List (String × String)) :
    ExtractResult EventData :=
  if eventTypeRaw = "Lehrveranstaltung" then
    .ok (.lecture
      ((lookupAssoc metadata "Veranstaltungsnummer").getD "")
      (lookupAssoc metadata "Sprache")
      (lookupAssoc metadata "Veranstaltungsart")
      ((lookupAssoc metadata "Veranstaltungskategorie").elim []
        (fun categories =>
          (splitOnChars categories.data [',']).map (fun t => (trimChars t).asString)))
      ((lookupAssoc metadata "Soll-Stunden").bind parseU32?))
  else if eventTypeRaw = "Prüfung" then .ok .exam
  else if eventTypeRaw = "Sonstiger Termin" then .ok .other
  else .err (.custom ("Failed to resolve event type: " ++ eventTypeRaw))

/-- `main.rs` lines 175–268 (`process_event`). -/
def processEvent (eventHandle : Node) : ExtractResult Event :=
  ExtractResult.bind (okOr (getNodeByTagName eventHandle "a")
      "No containing link in event!") fun linkHandle =>
  ExtractResult.bind (okOr (getNodeByTagName linkHandle "span")
      "No tooltip in event!") fun tooltipHandle =>
  ExtractResult.bind (okOr (getNodeByTagName tooltipHandle "strong")
      "Could not identify event type!") fun eventTypeHandle =>
  let eventTypeRaw := (getContent eventTypeHandle).getD ""
  ExtractResult.bind (okOr (getNodeByTagName tooltipHandle "table")
      "No event metadata found!") fun metadataHandle =>
  match getNodesByTagName tooltipHandle "div" with
  | d0 :: d1 :: _ =>
    ExtractResult.bind (okOr (getContent d0)
        "No creation/changed time found for event!") fun ccRaw =>
    ExtractResult.bind (parseCreation ccRaw) fun creation =>
    ExtractResult.bind (okOr (getContent d1)
        "Missing datetime in event!") fun dateTimeText =>
    ExtractResult.bind (parseBeginEnd dateTimeText) fun be =>
    let metadata := parseMetadata metadataHandle
    let cl :=
      match lookupAssoc metadata "Ressourcen" with
      | none => ([], [])
      | some resources => classifyResources resources
    ExtractResult.bind (eventDataFor eventTypeRaw metadata) fun data =>
    .ok {
      creation := some creation
      creator := lookupAssoc metadata "reserviert von"
      begin := be.1
      «end» := be.2
      name := ((lookupAssoc metadata "Veranstaltungsname").orElse
        (fun _ => (lookupAssoc metadata "Titel").orElse
          (fun _ => lookupAssoc metadata "Name"))).getD ""
      lecturers := []
      locations := cl.2
      courses := cl.1
      data := data }
  | _ => .err (.custom "Missing metadata on event!")

/-- The per-division loop of `load_day` (`main.rs` lines 160–170):
unmarked divisions are skipped with a warning, recoverable `process_event`
errors are logged and skipped, panics propagate. -/
def loadDayGo : List Node → ExtractResult (List Event)
  | [] => .ok []
  | div :: rest =>
    if (getAttributeValue div "class").elim true (· != "month_block") then
      loadDayGo rest
    else
      match processEvent div with
      | .ok e =>
        (match loadDayGo rest with
         | .ok es => .ok (e :: es)
         | .err er => .err er
         | .panicked m => .panicked m)
      | .err _ => loadDayGo rest
      | .panicked m => .panicked m

/-- `main.rs` lines 150–173 (`load_day`). -/
def loadDay (cellHandle : Node) : ExtractResult (Option (List Event)) :=
  let divs := getNodesByTagName cellHandle "div"
  if divs.length < 2 then .ok none
  else
    match loadDayGo (divs.drop 1) with
    | .ok events => .ok (some events)
    | .err e => .err e
    | .panicked m => .panicked m

/-- The day cells of a month element: `table > tbody > tr* > td*` with
class `"month_cell"` (`main.rs` lines 123–129). -/
def monthCells (monthHandle : Node) : List Node :=
  match getNodeByTagName monthHandle "table" with
  | none => []
  | some tableHandle =>
  match getNodeByTagName tableHandle "tbody" with
  | none => []
  | some tbodyHandle =>
    ((getNodesByTagName tbodyHandle "tr").map (fun rowHandle =>
      (getNodesByTagName rowHandle "td").filter (fun cellHandle =>
        (getAttributeValue cellHandle "class").elim false (· == "month_cell")))).flatten

/-- The per-cell loop of `load_month` (`main.rs` lines 131–138):
day errors are logged and skipped, panics propagate. -/
def loadMonthGo : List Node → ExtractResult (List Event)
  | [] => .ok []
  | cell :: rest =>
    match loadDay cell with
    | .ok (some dayEvents) =>
      (match loadMonthGo rest with
       | .ok es => .ok (dayEvents ++ es)
       | .err er => .err er
       | .panicked m => .panicked m)
    | .ok none => loadMonthGo rest
    | .err _ => loadMonthGo rest
    | .panicked m => .panicked m

/-- `%Y%m` formatting of a datetime (`end.format("%Y%m")`): the year
zero-padded to at least four digits, then the month zero-padded to two. -/
def padNum (width n : Nat) : String :=
  let s := toString n
  ((List.replicate (width - s.length) '0').asString) ++ s

def formatYYYYMM (dt : DateTime) : String :=
  (if dt.year < 0 then "-" else "") ++ padNum 4 dt.year.natAbs ++ padNum 2 dt.month

/-- `main.rs` lines 120–148 (`load_month`): collect the events of all
marked day cells; a month with no events yields `none`, otherwise the
period key is the first event's end date formatted `%Y%m`. -/
def loadMonth (monthHandle : Node) : ExtractResult (Option (String × List Event)) :=
  match loadMonthGo (monthCells monthHandle) with
  | .ok events =>
    (match events with
     | [] => .ok none
     | e :: rest => .ok (some (formatYYYYMM e.«end», e :: rest)))
  | .err e => .err e
  | .panicked m => .panicked m

/-! ## Archive merge (`main.rs` lines 64–76)

`Months` is a `BTreeMap<String, Vec<Event>>`; the merge reads the archive
and runs `archive_months.extend(months)`, so fresh entries overwrite
archived ones key by key. -/

abbrev Months : Type := List (String × List Event)

def mergeMonths (fresh archived : Months) : Months := extendAssoc archived fresh

/-! ## Calendar serialization (`src/icalendar.rs`)

Output is modelled as the list of emitted physical lines; every `write!`
in the source terminates exactly one physical line with CRLF, so the CRLF
terminators are left implicit.  Continuation lines produced by folding
include their leading space. -/

/-- One step of the folding loop of `write_ical_line` (lines 89–95): take
the longest prefix whose cumulative UTF-8 size stays within `budget`.  A
character is taken exactly when the running byte total stays `≤ 72`. -/
def takeWithin : Nat → List Char → List Char × List Char
  | _, [] => ([], [])
  | budget, c :: cs =>
    if charUtf8Size c ≤ budget then
      let p := takeWithin (budget - charUtf8Size c) cs
      (c :: p.1, p.2)
    else
      ([], c :: cs)

/-- The `while !line_rest.is_empty()` loop of `write_ical_line`, with
explicit fuel (one unit per iteration; each iteration consumes at least
one character, so `l.length` units always suffice). -/
def foldLineAux : Nat → List Char → List (List Char)
  | _, [] => []
  | 0, c :: cs => [c :: cs]
  | fuel + 1, c :: cs =>
    let p := takeWithin 72 (c :: cs)
    p.1 :: foldLineAux fuel p.2

/-- Split a logical line into chunks of at most 72 UTF-8 bytes. -/
def foldLine (l : List Char) : List (List Char) := foldLineAux l.length l

/-- `write_ical_line` (lines 83–108): the first chunk is written bare,
every further chunk is prefixed with a single space. -/
def writeIcalLine (line : String) : List String :=
  match foldLine line.data with
  | [] => []
  | first :: rest => first.asString :: rest.map (fun chunk => (' ' :: chunk).asString)

/-- `value.replace(",", "\\,")`. -/
def escapeCommas (s : String) : String :=
  ((s.data.map (fun c => if c = ',' then ['\\', ','] else [c])).flatten).asString

/-- `write_ical_field` (lines 75–81): escape commas in the value, then fold
`key:value`. -/
def writeIcalField (key value : String) : List String :=
  writeIcalLine (key ++ ":" ++ escapeCommas value)

/-- `%Y%m%dT%H%M` (`ICAL_DATETIME_FORMAT`). -/
def formatIcalDateTime (dt : DateTime) : String :=
  (if dt.year < 0 then "-" else "") ++ padNum 4 dt.year.natAbs ++ padNum 2 dt.month
    ++ padNum 2 dt.day ++ "T" ++ padNum 2 dt.hour ++ padNum 2 dt.minute

/-- The description text accumulated from the lecture-specific fields
(lines 38–51 of `write_lecture`). -/
def lectureDescriptionPart (event : Event) : String :=
  match event.data with
  | .lecture _ language _ categories totalHours =>
    (if categories.isEmpty then "" else String.intercalate ", " categories ++ "\\n\\n")
      ++ (match language with
          | some l => "Sprache: " ++ l ++ "\\n"
          | none => "")
      ++ (match totalHours with
          | some th => "Insgesamte Stunden: " ++ toString th ++ "\\n"
          | none => "")
  | _ => ""

/-- The `CATEGORIES` line (line 41), present only for lectures with
non-empty categories. -/
def categoriesLines (event : Event) : List String :=
  match event.data with
  | .lecture _ _ _ categories _ =>
    if categories.isEmpty then []
    else writeIcalLine ("CATEGORIES:" ++ String.intercalate "," categories)
  | _ => []

/-- The `ORGANIZER`/`ATTENDEE` lines for lecturers (lines 53–62). -/
def lecturerLines (event : Event) : List String :=
  match event.lecturers with
  | [] => []
  | first :: _ =>
    writeIcalLine ("ORGANIZER;CN=\"" ++ first.name ++ "\":noreply@siphalor.de")
      ++ (event.lecturers.map (fun l =>
        writeIcalLine ("ATTENDEE;CN=\"" ++ l.name ++ "\":noreply@siphalor.de"))).flatten

/-- The lecturer part of the description (lines 56–64). -/
def lecturersDescriptionPart (event : Event) : String :=
  match event.lecturers with
  | [] => "Dozent:innen sind aufgrund von Datenschutzbedenken der DHBW nicht mehr öffentlich!"
  | _ :: _ =>
    "Dozent:innen: " ++ String.intercalate ", " (event.lecturers.map Lecturer.name) ++ "\\n"

/-- The `ATTENDEE` lines for courses (lines 67–69). -/
def courseLines (event : Event) : List String :=
  (event.courses.map (fun course =>
    writeIcalLine ("ATTENDEE;CN=\"" ++ course ++ "\":noreply@siphalor.de"))).flatten

/-- `write_lecture` (lines 21–73): the full per-event block.  Note that
`UID`, `LOCATION` and `DESCRIPTION` go through `write_ical_field`
(escape + fold), `CATEGORIES`/`ORGANIZER`/`ATTENDEE` go through
`write_ical_line` (fold only), while `BEGIN`, `CREATED`, `DTSTART`,
`DTEND`, `SUMMARY` and `END` are raw `write!` calls. -/
def writeLecture (event : Event) : List String :=
  ["BEGIN:VEVENT"]
    ++ writeIcalField "UID" (toString event.hashCode ++ "@icalnigma")
    ++ (match event.creation with
        | some creation => ["CREATED:" ++ formatIcalDateTime creation ++ "00Z"]
        | none => [])
    ++ ["DTSTART:" ++ formatIcalDateTime event.begin ++ "00Z"]
    ++ ["DTEND:" ++ formatIcalDateTime event.«end» ++ "00Z"]
    ++ ["SUMMARY:" ++ event.title]
    ++ (if event.locations.isEmpty then []
        else writeIcalField "LOCATION" (String.intercalate ", " event.locations))
    ++ categoriesLines event
    ++ lecturerLines event
    ++ courseLines event
    ++ writeIcalField "DESCRIPTION"
        (lectureDescriptionPart event ++ lecturersDescriptionPart event)
    ++ ["END:VEVENT"]

/-! ## Concrete test fixtures

Small HTML fragments in the markup shape consumed by the extractor, used
as concrete inputs for counterexamples and witnesses. -/

def mkText (s : String) : Node := .mk (.text s) []

def mkElem (tag : String) (attrs : List (String × String)) (children : List Node) : Node :=
  .mk (.element tag attrs) children

/-- A metadata table row `<tr><td>k</td><td>v</td></tr>`. -/
def mkMetaRow (k v : String) : Node :=
  mkElem "tr" [] [mkElem "td" [] [mkText k], mkElem "td" [] [mkText v]]

/-- A well-formed event block: marked `div > a > span` holding the
`<strong>` type label, the metadata table, the creation text and the
datetime range text. -/
def mkEventNodeFull (label ccText dtText : String) (metaRows : List Node) : Node :=
  mkElem "div" [("class", "month_block")] [
    mkElem "a" [] [
      mkElem "span" [] [
        mkElem "strong" [] [mkText label],
        mkElem "table" [] [mkElem "tbody" [] metaRows],
        mkElem "div" [] [mkText ccText],
        mkElem "div" [] [mkText dtText]]]]

/-- Event block with a given type label, whose metadata table carries
`Veranstaltungsart: Prüfung`. -/
def mkEventNode (label : String) : Node :=
  mkEventNodeFull label "erstellt am01.02.24 12:30" "Mo 04.03.24 10:00-11:30 Uhr"
    [mkMetaRow "Veranstaltungsart:" "Prüfung"]

/-- The event extracted from `mkEventNode "Prüfung"`. -/
def examEvent : Event where
  creation := some ⟨2024, 2, 1, 12, 30⟩
  creator := none
  begin := ⟨2024, 3, 4, 10, 0⟩
  «end» := ⟨2024, 3, 4, 11, 30⟩
  name := ""
  lecturers := []
  locations := []
  courses := []
  data := .exam

/-- The event extracted from `mkEventNode "Lehrveranstaltung"`: a lecture
whose `kind` field (not its `EventData` variant) records `"Prüfung"`. -/
def lectureEvent : Event where
  creation := some ⟨2024, 2, 1, 12, 30⟩
  creator := none
  begin := ⟨2024, 3, 4, 10, 0⟩
  «end» := ⟨2024, 3, 4, 11, 30⟩
  name := ""
  lecturers := []
  locations := []
  courses := []
  data := .lecture "" none (some "Prüfung") [] none

/-- A day cell whose second division is not marked as an event block. -/
def unmarkedDayCell : Node :=
  mkElem "td" [("class", "month_cell")]
    [mkElem "div" [] [mkText "5"], mkElem "div" [] [mkText "junk"]]

/-- A day cell with the day-number division and one marked event block. -/
def markedDayCell : Node :=
  mkElem "td" [("class", "month_cell")]
    [mkElem "div" [] [mkText "4"], mkEventNode "Prüfung"]

/-- A day cell with one failing and one succeeding marked event block. -/
def mixedDayCell : Node :=
  mkElem "td" [("class", "month_cell")]
    [mkElem "div" [] [mkText "4"], mkEventNode "Unbekannt", mkEventNode "Prüfung"]

/-- An event block whose creation text has at least 14 bytes after the
`"erstellt am"` prefix but whose byte 14 falls inside the two-byte UTF-8
encoding of `'ä'`. -/
def panicEventNode : Node :=
  mkEventNodeFull "Prüfung" "erstellt am0123456789012ä rest"
    "Mo 04.03.24 10:00-11:30 Uhr" []

/-- An event block whose datetime range ends before it begins. -/
def reversedRangeNode : Node :=
  mkEventNodeFull "Prüfung" "erstellt am01.02.24 12:30" "Mo 04.03.24 10:00-09:00 Uhr" []

/-- The event extracted from `reversedRangeNode`. -/
def reversedRangeEvent : Event where
  creation := some ⟨2024, 2, 1, 12, 30⟩
  creator := none
  begin := ⟨2024, 3, 4, 10, 0⟩
  «end» := ⟨2024, 3, 4, 9, 0⟩
  name := ""
  lecturers := []
  locations := []
  courses := []
  data := .exam

/-- A month element with no day cells at all. -/
def emptyMonthNode : Node := mkElem "div" [("class", "calendar")] []

/-- A month element with a single day cell holding one exam event. -/
def fullMonthNode : Node :=
  mkElem "div" [("class", "calendar")] [
    mkElem "table" [] [
      mkElem "tbody" [] [
        mkElem "tr" [] [markedDayCell]]]]

/-- An event whose title is longer than 72 bytes and contains a comma. -/
def longTitleEvent : Event where
  creation := none
  creator := none
  begin := ⟨2024, 3, 4, 10, 0⟩
  «end» := ⟨2024, 3, 4, 11, 30⟩
  name := "Grundlagen der Informationstechnik, Teil 2 (Rechnerarchitekturen und verteilte Systeme im Detail)"
  lecturers := []
  locations := []
  courses := []
  data := .other

/-- The event extracted from `mkEventNode "Sonstiger Termin"`. -/
def otherEvent : Event where
  creation := some ⟨2024, 2, 1, 12, 30⟩
  creator := none
  begin := ⟨2024, 3, 4, 10, 0⟩
  «end» := ⟨2024, 3, 4, 11, 30⟩
  name := ""
  lecturers := []
  locations := []
  courses := []
  data := .other

/-- A 73-byte logical line whose 72-byte boundary falls inside the
two-byte character `'ä'`. -/
def boundaryLine : String :=
  "aaaaaaaaaaaaaaaaaaaaaaaaaaaaaaaaaaaaaaaaaaaaaaaaaaaaaaaaaaaaaaaaaaaaaaaä"

/-- Two events agreeing on the hashed fields (creation, name, begin date,
creator) but differing in begin time, end, lecturers, locations, courses
and event-kind data. -/
def hashInputA : Event where
  creation := some ⟨2024, 2, 1, 12, 30⟩
  creator := some "Alice"
  begin := ⟨2024, 3, 4, 10, 0⟩
  «end» := ⟨2024, 3, 4, 11, 30⟩
  name := "Mathe"
  lecturers := []
  locations := ["R1"]
  courses := ["INF-23A"]
  data := .exam

def hashInputB : Event where
  creation := some ⟨2024, 2, 1, 12, 30⟩
  creator := some "Alice"
  begin := ⟨2024, 3, 4, 8, 15⟩
  «end» := ⟨2024, 3, 5, 9, 0⟩
  name := "Mathe"
  lecturers := [⟨"Bob"⟩]
  locations := [" Hörsaal 1"]
  courses := []
  data := .other

/-! ## Helper lemmas -/

theorem digit_toNat_le {c : Char} (h : c.isDigit = true) : c.toNat - 48 ≤ 9 := by
  simp [Char.isDigit] at h
  have : c.val.toNat ≤ 57 := UInt32.toNat_le_of_le (by decide) h.2
  simp [Char.toNat]
  omega

theorem readNum2_lt_100 {l : List Char} {n : Nat} {r : List Char}
    (h : readNum2 l = some (n, r)) : n < 100 := by
  unfold readNum2 at h
  split at h
  · exact absurd h (by simp)
  · rename_i c1 rest
    split at h
    · rename_i hd1
      have hb1 : c1.toNat - 48 ≤ 9 := digit_toNat_le hd1
      split at h
      · rename_i c2 rest2
        split at h
        · rename_i hd2
          have hb2 : c2.toNat - 48 ≤ 9 := digit_toNat_le hd2
          simp at h
          omega
        · simp at h
          omega
      · simp at h
        omega
    · exact absurd h (by simp)

theorem mkValidDateTime_bounds {d m yy hh mi : Nat} {dt : DateTime}
    (hyy : yy < 100) (h : mkValidDateTime d m yy hh mi = some dt) :
    1900 ≤ dt.year ∧ dt.year < 2100 ∧ 1 ≤ dt.month ∧ dt.month ≤ 12 := by
  unfold mkValidDateTime at h
  split at h
  · simp only [] at h
    split at h
    · rename_i hvalid
      simp only [Option.some.injEq] at h
      subst h
      refine ⟨?_, ?_, ?_, ?_⟩ <;> simp only [] <;> omega
    · exact absurd h (by simp)
  · simp only [] at h
    split at h
    · rename_i hvalid
      simp only [Option.some.injEq] at h
      subst h
      refine ⟨?_, ?_, ?_, ?_⟩ <;> simp only [] <;> omega
    · exact absurd h (by simp)

/-- Any datetime produced by the `dd.mm.yyHH:MM` parser has a year in
`[1900, 2100)` and a month in `[1, 12]`. -/
theorem parseDDMMYYHHMM_bounds {s : String} {dt : DateTime}
    (h : parseDDMMYYHHMM s = some dt) :
    1900 ≤ dt.year ∧ dt.year < 2100 ∧ 1 ≤ dt.month ∧ dt.month ≤ 12 := by
  unfold parseDDMMYYHHMM at h
  simp only [Option.bind_eq_some] at h
  obtain ⟨⟨d, l1⟩, -, h⟩ := h
  obtain ⟨l2, -, h⟩ := h
  obtain ⟨⟨m, l3⟩, -, h⟩ := h
  obtain ⟨l4, -, h⟩ := h
  obtain ⟨⟨yy, l5⟩, hyy, h⟩ := h
  obtain ⟨⟨hh, l6⟩, -, h⟩ := h
  obtain ⟨l7, -, h⟩ := h
  obtain ⟨⟨mi, l8⟩, -, h⟩ := h
  split at h
  · exact mkValidDateTime_bounds (readNum2_lt_100 hyy) h
  · exact absurd h (by simp)

theorem bind_eq_ok {α β : Type} {x : ExtractResult α} {f : α → ExtractResult β} {b : β} :
    ExtractResult.bind x f = .ok b ↔ ∃ a, x = .ok a ∧ f a = .ok b := by
  cases x <;> simp [ExtractResult.bind]

/-- The begin and end instants of every extracted event are the
`dd.mm.yyHH:MM` parses of the shared date token combined with the two time
tokens of the datetime range text. -/
theorem parseBeginEnd_ok {s : String} {b e : DateTime}
    (h : parseBeginEnd s = .ok (b, e)) :
    ∃ date bt et : List Char,
      parseDDMMYYHHMM (date ++ bt).asString = some b
      ∧ parseDDMMYYHHMM (date ++ et).asString = some e := by
  unfold parseBeginEnd at h
  split at h
  · exact absurd h (by simp)
  split at h
  · exact absurd h (by simp)
  split at h
  · exact absurd h (by simp)
  split at h
  · exact absurd h (by simp)
  split at h
  · exact absurd h (by simp)
  split at h
  · exact absurd h (by simp)
  simp only [ExtractResult.ok.injEq, Prod.mk.injEq] at h
  obtain ⟨h1, h2⟩ := h
  subst h1
  subst h2
  exact ⟨_, _, _, by assumption, by assumption⟩

/-- The end instant of every event accepted by `process_event` comes from
`parseBeginEnd`. -/
theorem processEvent_ok_end {n : Node} {ev : Event} (h : processEvent n = .ok ev) :
    ∃ s : String, ∃ b : DateTime, parseBeginEnd s = .ok (b, ev.«end») := by
  unfold processEvent at h
  simp only [bind_eq_ok] at h
  obtain ⟨linkHandle, -, h⟩ := h
  obtain ⟨tooltipHandle, -, h⟩ := h
  obtain ⟨eventTypeHandle, -, h⟩ := h
  obtain ⟨metadataHandle, -, h⟩ := h
  split at h
  · simp only [bind_eq_ok] at h
    obtain ⟨ccRaw, -, h⟩ := h
    obtain ⟨creation, -, h⟩ := h
    obtain ⟨dateTimeText, -, h⟩ := h
    obtain ⟨be, hbe, h⟩ := h
    obtain ⟨data, -, h⟩ := h
    simp only [ExtractResult.ok.injEq] at h
    subst h
    exact ⟨dateTimeText, be.1, hbe⟩
  · exact absurd h (by simp)

/-- Year/month bounds for the end instant of every extracted event. -/
theorem processEvent_ok_end_bounds {n : Node} {ev : Event}
    (h : processEvent n = .ok ev) :
    1900 ≤ ev.«end».year ∧ ev.«end».year < 2100
      ∧ 1 ≤ ev.«end».month ∧ ev.«end».month ≤ 12 := by
  obtain ⟨s, b, hbe⟩ := processEvent_ok_end h
  obtain ⟨date, bt, et, -, het⟩ := parseBeginEnd_ok hbe
  exact parseDDMMYYHHMM_bounds het

/-- Every event produced by the per-day loop comes from a successful
`process_event`. -/
theorem loadDayGo_mem {P : Event → Prop}
    (hP : ∀ (n : Node) (e : Event), processEvent n = .ok e → P e) :
    ∀ (l : List Node) (es : List Event), loadDayGo l = .ok es → ∀ e ∈ es, P e := by
  intro l
  induction l with
  | nil =>
    intro es h e he
    simp only [loadDayGo, ExtractResult.ok.injEq] at h
    subst h
    simp at he
  | cons d rest ih =>
    intro es h e he
    unfold loadDayGo at h
    split at h
    · exact ih es h e he
    · split at h
      · rename_i ev hev
        split at h
        · rename_i es' hes'
          simp only [ExtractResult.ok.injEq] at h
          subst h
          simp only [List.mem_cons] at he
          rcases he with he | he
          · subst he
            exact hP d e hev
          · exact ih es' hes' e he
        · exact absurd h (by simp)
        · exact absurd h (by simp)
      · exact ih es h e he
      · exact absurd h (by simp)

/-- Every event of a successfully loaded day satisfies any property that
holds of all `process_event` outputs. -/
theorem loadDay_mem {P : Event → Prop}
    (hP : ∀ (n : Node) (e : Event), processEvent n = .ok e → P e)
    {c : Node} {es : List Event} (h : loadDay c = .ok (some es)) :
    ∀ e ∈ es, P e := by
  unfold loadDay at h
  simp only [] at h
  split at h
  · exact absurd h (by simp)
  · split at h
    · rename_i es' hes'
      simp only [ExtractResult.ok.injEq, Option.some.injEq] at h
      subst h
      exact loadDayGo_mem hP _ es' hes'
    · exact absurd h (by simp)
    · exact absurd h (by simp)

/-- Every event collected over the month's day cells satisfies any property
that holds of all `process_event` outputs. -/
theorem loadMonthGo_mem {P : Event → Prop}
    (hP : ∀ (n : Node) (e : Event), processEvent n = .ok e → P e) :
    ∀ (l : List Node) (es : List Event), loadMonthGo l = .ok es → ∀ e ∈ es, P e := by
  intro l
  induction l with
  | nil =>
    intro es h e he
    simp only [loadMonthGo, ExtractResult.ok.injEq] at h
    subst h
    simp at he
  | cons c rest ih =>
    intro es h e he
    unfold loadMonthGo at h
    split at h
    · rename_i dayEvents hday
      split at h
      · rename_i es' hes'
        simp only [ExtractResult.ok.injEq] at h
        subst h
        simp only [List.mem_append] at he
        rcases he with he | he
        · exact loadDay_mem hP hday e he
        · exact ih es' hes' e he
      · exact absurd h (by simp)
      · exact absurd h (by simp)
    · exact ih es h e he
    · exact ih es h e he
    · exact absurd h (by simp)

theorem charUtf8Size_pos (c : Char) : 0 < charUtf8Size c := by
  unfold charUtf8Size
  repeat' split <;> norm_num

theorem charUtf8Size_le_four (c : Char) : charUtf8Size c ≤ 4 := by
  unfold charUtf8Size
  repeat' split <;> norm_num

theorem takeWithin_append (b : Nat) (l : List Char) :
    (takeWithin b l).1 ++ (takeWithin b l).2 = l := by
  induction l generalizing b with
  | nil => simp [takeWithin]
  | cons c cs ih =>
    unfold takeWithin
    split
    · simpa using ih (b - charUtf8Size c)
    · simp

theorem takeWithin_fst_byteSize (b : Nat) (l : List Char) :
    byteSize (takeWithin b l).1 ≤ b := by
  induction l generalizing b with
  | nil => simp [takeWithin, byteSize]
  | cons c cs ih =>
    unfold takeWithin
    split
    · rename_i hle
      have := ih (b - charUtf8Size c)
      simp only [byteSize, List.map_cons, List.sum_cons] at this ⊢
      omega
    · simp [byteSize]

theorem takeWithin_snd_length (b : Nat) (l : List Char) :
    (takeWithin b l).2.length ≤ l.length := by
  induction l generalizing b with
  | nil => simp [takeWithin]
  | cons c cs ih =>
    unfold takeWithin
    split
    · have := ih (b - charUtf8Size c)
      simp only [List.length_cons]
      omega
    · simp

theorem takeWithin_snd_lt (b : Nat) (c : Char) (cs : List Char) (hb : 4 ≤ b) :
    (takeWithin b (c :: cs)).2.length < (c :: cs).length := by
  unfold takeWithin
  rw [if_pos (le_trans (charUtf8Size_le_four c) hb)]
  have := takeWithin_snd_length (b - charUtf8Size c) cs
  simp only [List.length_cons]
  omega

/-- Folding loses no characters: the chunks concatenate back to the input
(in particular no character is ever split). -/
theorem foldLineAux_flatten :
    ∀ (fuel : Nat) (l : List Char), l.length ≤ fuel →
      (foldLineAux fuel l).flatten = l := by
  intro fuel
  induction fuel with
  | zero =>
    intro l hl
    cases l with
    | nil => rfl
    | cons c cs => simp at hl
  | succ f ih =>
    intro l hl
    cases l with
    | nil => rfl
    | cons c cs =>
      unfold foldLineAux
      simp only [List.flatten_cons]
      have hlt : (takeWithin 72 (c :: cs)).2.length < (c :: cs).length :=
        takeWithin_snd_lt 72 c cs (by norm_num)
      simp only [List.length_cons] at hl hlt
      rw [ih _ (by omega)]
      exact takeWithin_append 72 (c :: cs)

/-- Every chunk produced by folding stays within 72 UTF-8 bytes. -/
theorem foldLineAux_byteSize :
    ∀ (fuel : Nat) (l : List Char), l.length ≤ fuel →
      ∀ chunk ∈ foldLineAux fuel l, byteSize chunk ≤ 72 := by
  intro fuel
  induction fuel with
  | zero =>
    intro l hl chunk hc
    cases l with
    | nil => simp [foldLineAux] at hc
    | cons c cs => simp at hl
  | succ f ih =>
    intro l hl chunk hc
    cases l with
    | nil => simp [foldLineAux] at hc
    | cons c cs =>
      unfold foldLineAux at hc
      simp only [List.mem_cons] at hc
      rcases hc with hc | hc
      · subst hc
        exact takeWithin_fst_byteSize 72 (c :: cs)
      · have hlt : (takeWithin 72 (c :: cs)).2.length < (c :: cs).length :=
          takeWithin_snd_lt 72 c cs (by norm_num)
        simp only [List.length_cons] at hl hlt
        exact ih _ (by omega) chunk hc

theorem foldLine_flatten (l : List Char) : (foldLine l).flatten = l :=
  foldLineAux_flatten l.length l le_rfl

theorem foldLine_byteSize (l : List Char) :
    ∀ chunk ∈ foldLine l, byteSize chunk ≤ 72 :=
  foldLineAux_byteSize l.length l le_rfl

theorem asString_data (l : List Char) : (l.asString).data = l := rfl

/-- Every physical line emitted by `write_ical_line` is at most 73 bytes:
72 bytes of content plus the continuation-space prefix. -/
theorem writeIcalLine_byteSize (s : String) :
    ∀ line ∈ writeIcalLine s, byteSize line.data ≤ 73 := by
  intro line hline
  unfold writeIcalLine at hline
  split at hline
  · simp at hline
  · rename_i first rest heq
    have hmem : ∀ chunk ∈ foldLine s.data, byteSize chunk ≤ 72 := foldLine_byteSize s.data
    rw [heq] at hmem
    simp only [List.mem_cons] at hline
    rcases hline with hline | hline
    · subst hline
      rw [asString_data]
      exact le_trans (hmem first (by simp)) (by norm_num)
    · simp only [List.mem_map] at hline
      obtain ⟨chunk, hchunk, hl⟩ := hline
      subst hl
      rw [asString_data]
      have : byteSize chunk ≤ 72 := hmem chunk (by simp [hchunk])
      simp only [byteSize, List.map_cons, List.sum_cons] at this ⊢
      have hsp : charUtf8Size ' ' = 1 := rfl
      omega

/-- Is every comma in the line preceded by a backslash? -/
def commaEscapedAux : Char → List Char → Bool
  | _, [] => true
  | prev, c :: cs =>
    if c = ',' && prev != '\\' then false else commaEscapedAux c cs

/-- A line has all its commas escaped when no comma appears at the start
or after a character other than a backslash. -/
def commaEscaped (l : List Char) : Bool := commaEscapedAux 'A' l

theorem lookupAssoc_insertAssoc_self {α : Type} (m : List (String × α)) (k : String) (v : α) :
    lookupAssoc (insertAssoc m k v) k = some v := by
  induction m with
  | nil => simp [insertAssoc, lookupAssoc]
  | cons kv rest ih =>
    obtain ⟨k', v'⟩ := kv
    unfold insertAssoc
    split
    · simp [lookupAssoc]
    · rename_i hne
      unfold lookupAssoc
      rw [if_neg hne]
      exact ih

theorem lookupAssoc_insertAssoc_ne {α : Type} (m : List (String × α)) (k k' : String) (v : α)
    (h : k ≠ k') : lookupAssoc (insertAssoc m k v) k' = lookupAssoc m k' := by
  induction m with
  | nil => simp [insertAssoc, lookupAssoc, h]
  | cons kv rest ih =>
    obtain ⟨k0, v0⟩ := kv
    unfold insertAssoc
    split
    · rename_i heq
      subst heq
      simp [lookupAssoc, h]
    · unfold lookupAssoc
      split
      · rfl
      · exact ih

theorem lookupAssoc_eq_none {α : Type} (m : List (String × α)) (k : String) :
    lookupAssoc m k = none ↔ k ∉ m.map Prod.fst := by
  induction m with
  | nil => simp [lookupAssoc]
  | cons kv rest ih =>
    obtain ⟨k', v'⟩ := kv
    unfold lookupAssoc
    split
    · rename_i heq
      subst heq
      simp
    · rename_i hne
      simp only [List.map_cons, List.mem_cons]
      rw [ih]
      constructor
      · intro h hk
        rcases hk with hk | hk
        · exact hne hk.symm
        · exact h hk
      · intro h hk
        exact h (Or.inr hk)

theorem lookupAssoc_extendAssoc_not_mem {α : Type} (fresh base : List (String × α))
    (k : String) (h : k ∉ fresh.map Prod.fst) :
    lookupAssoc (extendAssoc base fresh) k = lookupAssoc base k := by
  induction fresh generalizing base with
  | nil => rfl
  | cons kv rest ih =>
    obtain ⟨k', v'⟩ := kv
    simp only [List.map_cons, List.mem_cons] at h
    push_neg at h
    unfold extendAssoc
    rw [ih _ h.2, lookupAssoc_insertAssoc_ne _ _ _ _ (fun he => h.1 he.symm)]

theorem lookupAssoc_extendAssoc_some {α : Type} (fresh base : List (String × α))
    (k : String) (v : α) (hnd : (fresh.map Prod.fst).Nodup)
    (h : lookupAssoc fresh k = some v) :
    lookupAssoc (extendAssoc base fresh) k = some v := by
  induction fresh generalizing base with
  | nil => simp [lookupAssoc] at h
  | cons kv rest ih =>
    obtain ⟨k', v'⟩ := kv
    simp only [List.map_cons, List.nodup_cons] at hnd
    unfold lookupAssoc at h
    split at h
    · rename_i heq
      subst heq
      simp only [Option.some.injEq] at h
      subst h
      unfold extendAssoc
      rw [lookupAssoc_extendAssoc_not_mem rest _ _ hnd.1]
      exact lookupAssoc_insertAssoc_self base _ _
    · exact ih _ hnd.2 h

/-- With equal calendar dates, the order of two instants is decided by
their times of day. -/
theorem timestamp_le_iff_of_same_date {b e : DateTime}
    (hy : b.year = e.year) (hm : b.month = e.month) (hd : b.day = e.day) :
    (b.timestamp ≤ e.timestamp ↔ b.hour * 60 + b.minute ≤ e.hour * 60 + e.minute) := by
  unfold DateTime.timestamp
  rw [hy, hm, hd]
  constructor <;> intro h <;> omega

theorem padNum_length (width n : Nat) (h : (toString n).length ≤ width) :
    (padNum width n).length = width := by
  unfold padNum
  rw [String.length_append]
  have hrep : ((List.replicate (width - (toString n).length) '0').asString).length
      = width - (toString n).length := by
    show (List.replicate (width - (toString n).length) '0').length
      = width - (toString n).length
    exact List.length_replicate _ _
  omega

theorem toString_nat_length_le (n e : Nat) (he : 0 < e) (h : n < 10 ^ e) :
    (toString n).length ≤ e :=
  Nat.repr_length n e he h

/-- The period key of a datetime with a four-digit year is six characters
long. -/
theorem formatYYYYMM_length {dt : DateTime} (h1 : 1900 ≤ dt.year)
    (h2 : dt.year < 2100) (h3 : 1 ≤ dt.month) (h4 : dt.month ≤ 12) :
    (formatYYYYMM dt).length = 6 := by
  unfold formatYYYYMM
  rw [if_neg (by omega)]
  have hy : dt.year.natAbs < 2100 ∧ 1900 ≤ dt.year.natAbs := by omega
  rw [String.length_append, String.length_append]
  rw [padNum_length 4 _ (toString_nat_length_le _ 4 (by norm_num) (by omega)),
    padNum_length 2 _ (toString_nat_length_le _ 2 (by norm_num) (by omega))]
  rfl

/-- The classification fold appends each token to the matching side, so it
computes the two filters of the token list. -/
theorem classify_foldl_filter (p : String → Bool) :
    ∀ (l : List String) (cs ls : List String),
      l.foldl (fun acc r => if p r then (acc.1 ++ [r], acc.2) else (acc.1, acc.2 ++ [r]))
          (cs, ls)
        = (cs ++ l.filter p, ls ++ l.filter (fun t => !p t)) := by
  intro l
  induction l with
  | nil => simp
  | cons r rest ih =>
    intro cs ls
    simp only [List.foldl_cons]
    cases hp : p r with
    | true => simp [ih, List.filter_cons, hp]
    | false => simp [ih, List.filter_cons, hp]

/-! ## Claims -/

/-- C1 (counterexample): it is false that every content line emitted by the
per-event serializer is folded to at most 72 content bytes and has its
commas escaped — the `SUMMARY` line of an event with a long, comma-bearing
title is emitted raw, so it exceeds the folding bound and carries an
unescaped comma. -/
theorem C1_counterexample :
    ¬ ∀ (e : Event), ∀ line ∈ writeLecture e,
        byteSize line.data ≤ 73 ∧ commaEscaped line.data = true := by
  intro h
  have hmem : ("SUMMARY:" ++ longTitleEvent.title) ∈ writeLecture longTitleEvent := by
    decide
  have hc := h longTitleEvent _ hmem
  have hlen : ¬ byteSize ("SUMMARY:" ++ longTitleEvent.title).data ≤ 73 := by decide
  exact hlen hc.1

/-- C1 (amended): comma-escaping followed by line-folding is applied to the
lines written through `write_ical_field` (`UID`, `LOCATION`,
`DESCRIPTION`): each of their physical lines stays within 72 content bytes
(73 with the continuation-space prefix) and the folded chunks concatenate
back to the comma-escaped logical line.  The `SUMMARY` line, by contrast,
is always emitted as the single raw physical line `SUMMARY:<title>`,
unfolded and unescaped. -/
theorem C1_amended_holds :
    (∀ key value : String, ∀ line ∈ writeIcalField key value, byteSize line.data ≤ 73)
    ∧ (∀ key value : String,
        (foldLine (key ++ ":" ++ escapeCommas value).data).flatten
          = (key ++ ":" ++ escapeCommas value).data)
    ∧ (∀ e : Event, ("SUMMARY:" ++ e.title) ∈ writeLecture e) := by
  refine ⟨?_, ?_, ?_⟩
  · intro key value line h
    exact writeIcalLine_byteSize _ line h
  · intro key value
    exact foldLine_flatten _
  · intro e
    unfold writeLecture
    simp [List.mem_append]

/-- C1 (witness): the amended statement instantiated on a concrete folded
`LOCATION` field and the concrete long-title event. -/
theorem C1_amended_witness :
    byteSize ("LOCATION:Raum A\\, sehr weit weg".data) ≤ 73
    ∧ ("SUMMARY:" ++ longTitleEvent.title) ∈ writeLecture longTitleEvent :=
  ⟨C1_amended_holds.1 "LOCATION" "Raum A, sehr weit weg"
      "LOCATION:Raum A\\, sehr weit weg" (by decide),
   C1_amended_holds.2.2 longTitleEvent⟩

/-- C2 (counterexample): the resource tokens are not trimmed — for
`"INF-23A, Hörsaal 1"` the code classifies the raw token `" Hörsaal 1"`
(leading space kept) as the location, not `"Hörsaal 1"` as the claim
states. -/
theorem C2_counterexample :
    classifyResources "INF-23A, Hörsaal 1" = (["INF-23A"], [" Hörsaal 1"])
    ∧ ([" Hörsaal 1"] : List String) ≠ ["Hörsaal 1"] := by
  exact ⟨rfl, by decide⟩

/-- C2 (amended): the `"Ressourcen"` value is split on commas and each raw
(untrimmed) token is classified as a course exactly when it matches
`^[A-Z]{3}-[A-Z0-9 ]+$`, else as a location, with the token stored
untrimmed; for `"INF-23A, Hörsaal 1"` this yields courses `["INF-23A"]`
and locations `[" Hörsaal 1"]`. -/
theorem C2_amended_holds :
    classifyResources "INF-23A, Hörsaal 1" = (["INF-23A"], [" Hörsaal 1"])
    ∧ ∀ s : String,
        classifyResources s =
          (((splitOnChars s.data [',']).map List.asString).filter groupPatternMatch,
           ((splitOnChars s.data [',']).map List.asString).filter
             (fun t => !groupPatternMatch t)) := by
  refine ⟨rfl, ?_⟩
  intro s
  unfold classifyResources
  rw [classify_foldl_filter]
  simp

/-- C3 (counterexample): a day cell with two divisions, none of them (after
the leading day-number division) marked as an event block, yields
`Ok(Some([]))` — an empty event list, not `None` as the claim states. -/
theorem C3_counterexample :
    loadDay unmarkedDayCell = .ok (some ([] : List Event))
    ∧ ExtractResult.ok (some ([] : List Event)) ≠ .ok (none : Option (List Event)) := by
  exact ⟨rfl, by decide⟩

/-- C3 (amended): a day cell with fewer than two divisions yields `none`;
a cell whose divisions are the day number followed by one marked event
block yields exactly the one successfully processed event; a cell with two
divisions whose second is unmarked yields `some []` (the empty list), not
`none`. -/
theorem C3_amended_holds :
    (∀ cell : Node, (getNodesByTagName cell "div").length < 2 → loadDay cell = .ok none)
    ∧ (∀ (cell d1 d2 : Node) (e : Event),
        getNodesByTagName cell "div" = [d1, d2] →
        getAttributeValue d2 "class" = some "month_block" →
        processEvent d2 = .ok e →
        loadDay cell = .ok (some [e]))
    ∧ (∀ (cell d1 d2 : Node),
        getNodesByTagName cell "div" = [d1, d2] →
        getAttributeValue d2 "class" = none →
        loadDay cell = .ok (some [])) := by
  refine ⟨?_, ?_, ?_⟩
  · intro cell h
    unfold loadDay
    simp only []
    rw [if_pos h]
  · intro cell d1 d2 e hdivs hclass hok
    unfold loadDay
    simp only [hdivs]
    rw [if_neg (by norm_num)]
    show (match loadDayGo [d2] with
      | .ok events => ExtractResult.ok (some events)
      | .err e => .err e
      | .panicked m => .panicked m) = _
    unfold loadDayGo
    rw [hclass]
    simp only [Option.elim_some, bne_self_eq_false, Bool.false_eq_true, if_false, hok]
    rfl
  · intro cell d1 d2 hdivs hclass
    unfold loadDay
    simp only [hdivs]
    rw [if_neg (by norm_num)]
    show (match loadDayGo [d2] with
      | .ok events => ExtractResult.ok (some events)
      | .err e => .err e
      | .panicked m => .panicked m) = _
    unfold loadDayGo
    rw [hclass]
    rfl

/-- C3 (witness): the amended statement instantiated on concrete day
cells. -/
theorem C3_amended_witness :
    loadDay (mkElem "td" [] []) = .ok none
    ∧ loadDay markedDayCell = .ok (some [examEvent])
    ∧ loadDay unmarkedDayCell = .ok (some []) :=
  ⟨C3_amended_holds.1 (mkElem "td" [] []) (by decide),
   C3_amended_holds.2.1 markedDayCell (mkElem "div" [] [mkText "4"])
     (mkEventNode "Prüfung") examEvent rfl rfl rfl,
   C3_amended_holds.2.2 unmarkedDayCell (mkElem "div" [] [mkText "5"])
     (mkElem "div" [] [mkText "junk"]) rfl rfl⟩

/-- C4 (counterexample): the event kind is not selected by the metadata
table — an event whose `<strong>` label is `"Lehrveranstaltung"` but whose
metadata table says `Veranstaltungsart: Prüfung` is extracted as a
Lecture (with `kind = "Prüfung"`), not as an Exam. -/
theorem C4_counterexample :
    processEvent (mkEventNode "Lehrveranstaltung") = .ok lectureEvent
    ∧ lectureEvent.data ≠ EventData.exam := by
  exact ⟨rfl, by decide⟩

/-- C4 (amended): the event kind is selected by the `<strong>` label of the
tooltip: `"Lehrveranstaltung"` yields a Lecture (the metadata field
`"Veranstaltungsart"` only fills the lecture's `kind` string), `"Prüfung"`
yields an Exam, `"Sonstiger Termin"` yields Other; any other label makes
that single event fail with an error while the surrounding day (and hence
month) extraction continues with the remaining events. -/
theorem C4_amended_holds :
    processEvent (mkEventNode "Prüfung") = .ok examEvent
    ∧ processEvent (mkEventNode "Lehrveranstaltung") = .ok lectureEvent
    ∧ processEvent (mkEventNode "Sonstiger Termin") = .ok otherEvent
    ∧ (∀ (label : String) (metadata : List (String × String)),
        label ≠ "Lehrveranstaltung" → label ≠ "Prüfung" → label ≠ "Sonstiger Termin" →
        eventDataFor label metadata
          = .err (.custom ("Failed to resolve event type: " ++ label)))
    ∧ loadDay mixedDayCell = .ok (some [examEvent]) := by
  refine ⟨rfl, rfl, rfl, ?_, rfl⟩
  intro label metadata h1 h2 h3
  unfold eventDataFor
  rw [if_neg h1, if_neg h2, if_neg h3]

/-- C4 (witness): the amended statement instantiated at the unrecognized
label `"Unbekannt"`. -/
theorem C4_amended_witness :
    eventDataFor "Unbekannt" []
      = .err (.custom ("Failed to resolve event type: " ++ "Unbekannt")) :=
  C4_amended_holds.2.2.2.1 "Unbekannt" [] (by decide) (by decide) (by decide)

/-- C5 (code evaluation): on a creation text whose byte 14 falls inside a
multi-byte character, `process_event` panics in `str::split_at` instead of
returning a per-event error — the extractor takes 14 *bytes*, not 14
characters, and the panic aborts the whole run. -/
theorem C5_panics :
    processEvent panicEventNode = .panicked "byte index 14 is not a char boundary" := by
  rfl

/-- C6 (confirmed): for every input string, line folding produces only
chunks of at most 72 UTF-8 content bytes, loses no characters (the chunks
concatenate back to the input, so no multi-byte character is ever split),
and every emitted physical line — including the continuation-space
prefix — stays within 73 bytes.  The folding function is total, so it
terminates on every input. -/
theorem C6_folding_correct :
    ∀ line : String,
      (∀ chunk ∈ foldLine line.data, byteSize chunk ≤ 72)
      ∧ (foldLine line.data).flatten = line.data
      ∧ (∀ phys ∈ writeIcalLine line, byteSize phys.data ≤ 73) := by
  intro line
  exact ⟨foldLine_byteSize line.data, foldLine_flatten line.data,
    writeIcalLine_byteSize line⟩

/-- C6 (witness): the folding bounds instantiated on a 73-byte line whose
72-byte cut point falls inside the two-byte character `'ä'`. -/
theorem C6_folding_witness :
    byteSize (boundaryLine.data.take 71) ≤ 72
    ∧ (foldLine boundaryLine.data).flatten = boundaryLine.data
    ∧ byteSize (" ä" : String).data ≤ 73 :=
  ⟨(C6_folding_correct boundaryLine).1 _ (by decide),
   (C6_folding_correct boundaryLine).2.1,
   (C6_folding_correct boundaryLine).2.2 " ä" (by decide)⟩

/-- C7 (confirmed): the event hash is a pure function of exactly
(creation epoch seconds or 0 when absent, name, begin year/month/day,
creator): any two events agreeing on these fields — whatever their
locations, courses, lecturers, end instant, begin time of day, or
event-kind data — have equal hash values. -/
theorem C7_hash_key_only :
    ∀ e1 e2 : Event,
      e1.creation.elim 0 DateTime.timestamp = e2.creation.elim 0 DateTime.timestamp →
      e1.name = e2.name →
      e1.begin.year = e2.begin.year →
      e1.begin.month = e2.begin.month →
      e1.begin.day = e2.begin.day →
      e1.creator = e2.creator →
      Event.hashCode e1 = Event.hashCode e2 := by
  intro e1 e2 h1 h2 h3 h4 h5 h6
  unfold Event.hashCode encodeEventHash
  rw [h1, h2, h3, h4, h5, h6]

/-- C7 (witness): two concrete events differing in lecturers, locations,
courses, end instant, begin time and kind data hash identically. -/
theorem C7_hash_witness :
    Event.hashCode hashInputA = Event.hashCode hashInputB
    ∧ hashInputA.locations ≠ hashInputB.locations
    ∧ hashInputA.«end» ≠ hashInputB.«end»
    ∧ hashInputA.data ≠ hashInputB.data :=
  ⟨C7_hash_key_only hashInputA hashInputB rfl rfl rfl rfl rfl rfl,
   by decide, by decide, by decide⟩

/-- C8 (confirmed): the archive merge starts from the archived mapping and
overwrites, key by key, every period present in the fresh mapping with the
fresh entry (no event-level union); periods present only in the archive
are kept unchanged; in particular merging fresh `{"202401": [B]}` into
archived `{"202401": [A]}` yields `{"202401": [B]}`. -/
theorem C8_merge_semantics :
    (∀ (fresh archived : Months) (k : String) (v : List Event),
        (fresh.map Prod.fst).Nodup →
        lookupAssoc fresh k = some v →
        lookupAssoc (mergeMonths fresh archived) k = some v)
    ∧ (∀ (fresh archived : Months) (k : String),
        lookupAssoc fresh k = none →
        lookupAssoc (mergeMonths fresh archived) k = lookupAssoc archived k)
    ∧ mergeMonths [("202401", [lectureEvent])] [("202401", [examEvent])]
        = [("202401", [lectureEvent])] := by
  refine ⟨?_, ?_, rfl⟩
  · intro fresh archived k v hnd h
    exact lookupAssoc_extendAssoc_some fresh archived k v hnd h
  · intro fresh archived k h
    exact lookupAssoc_extendAssoc_not_mem fresh archived k
      ((lookupAssoc_eq_none fresh k).mp h)

/-- C8 (witness): the merge semantics instantiated on concrete mappings:
a fresh period overwrites, an archive-only period is retained. -/
theorem C8_merge_witness :
    lookupAssoc (mergeMonths [("202401", [lectureEvent]), ("202402", [examEvent])]
        [("202401", [examEvent]), ("202312", [examEvent])]) "202401"
      = some [lectureEvent]
    ∧ lookupAssoc (mergeMonths [("202401", [lectureEvent])] [("202312", [examEvent])])
        "202312" = lookupAssoc [("202312", [examEvent])] "202312" :=
  ⟨C8_merge_semantics.1 [("202401", [lectureEvent]), ("202402", [examEvent])]
      [("202401", [examEvent]), ("202312", [examEvent])] "202401" [lectureEvent]
      (by decide) rfl,
   C8_merge_semantics.2.1 [("202401", [lectureEvent])] [("202312", [examEvent])]
      "202312" rfl⟩

/-- C9 (counterexample): extraction does not enforce `begin ≤ end` — the
event block whose range text is `"Mo 04.03.24 10:00-09:00 Uhr"` is
extracted successfully with `begin` strictly after `end`. -/
theorem C9_counterexample :
    processEvent reversedRangeNode = .ok reversedRangeEvent
    ∧ ¬ DateTime.le reversedRangeEvent.begin reversedRangeEvent.«end» := by
  exact ⟨rfl, by decide⟩

/-- C9 (amended): `begin ≤ end` is not checked by extraction; for an event
whose begin and end parse to the same calendar date (the normal case,
since both reuse the one date token), `begin ≤ end` holds exactly when the
begin time of day is no later than the end time of day — a reversed range
yields an event with `begin > end`. -/
theorem C9_amended_holds :
    ∀ (s : String) (b e : DateTime),
      parseBeginEnd s = .ok (b, e) →
      b.year = e.year → b.month = e.month → b.day = e.day →
      (DateTime.le b e ↔ b.hour * 60 + b.minute ≤ e.hour * 60 + e.minute) := by
  intro s b e hparse hy hm hd
  exact timestamp_le_iff_of_same_date hy hm hd

/-- C9 (witness): the amended statement instantiated on an ordered
concrete range. -/
theorem C9_amended_witness :
    DateTime.le (⟨2024, 3, 4, 9, 0⟩ : DateTime) ⟨2024, 3, 4, 10, 0⟩ :=
  (C9_amended_holds "Mo 04.03.24 09:00-10:00 Uhr" ⟨2024, 3, 4, 9, 0⟩
      ⟨2024, 3, 4, 10, 0⟩ rfl rfl rfl rfl).mpr (by norm_num)

/-- C10 (confirmed): a month whose day cells produce no events contributes
no entry (`none`), and whenever a month entry is produced its period key
is exactly the first extracted event's end date formatted `%Y%m`, a
six-character string. -/
theorem C10_month_key :
    ∀ month : Node,
      (loadMonthGo (monthCells month) = .ok [] → loadMonth month = .ok none)
      ∧ (∀ (k : String) (evs : List Event),
          loadMonth month = .ok (some (k, evs)) →
          ∃ e rest, evs = e :: rest ∧ k = formatYYYYMM e.«end» ∧ k.length = 6) := by
  intro month
  constructor
  · intro h
    unfold loadMonth
    rw [h]
  · intro k evs h
    unfold loadMonth at h
    split at h
    · rename_i events hgo
      split at h
      · exact absurd h (by simp)
      · rename_i e rest
        simp only [ExtractResult.ok.injEq, Option.some.injEq, Prod.mk.injEq] at h
        obtain ⟨hk, hevs⟩ := h
        refine ⟨e, rest, hevs.symm, hk.symm, ?_⟩
        have hb := loadMonthGo_mem
          (fun n ev hne => processEvent_ok_end_bounds hne) _ _ hgo e (by simp)
        subst hk
        exact formatYYYYMM_length hb.1 hb.2.1 hb.2.2.1 hb.2.2.2
    · exact absurd h (by simp)
    · exact absurd h (by simp)

/-- C10 (witness): the month-key property instantiated on a concrete empty
month and a concrete month holding one exam event ending 2024-03-04. -/
theorem C10_month_key_witness :
    loadMonth emptyMonthNode = .ok none
    ∧ ∃ e rest, ([examEvent] : List Event) = e :: rest
        ∧ "202403" = formatYYYYMM e.«end» ∧ ("202403" : String).length = 6 :=
  ⟨(C10_month_key emptyMonthNode).1 rfl,
   (C10_month_key fullMonthNode).2 "202403" [examEvent] rfl⟩

end ICalnigma
